import Mathlib

/-!
# Verification of the dashboard data-selection engine

Shallow embedding of `src/app/backend/resource/dataselect/dataselectquery.go`
together with the data-selection stages (sort, pagination, metrics) that the
specification describes.

Embedding conventions:
* Go slices that may be `nil` are embedded as `Option (List _)`; `none` is the
  `nil` slice, `some l` a non-nil slice with elements `l`.
* Go pointer identity matters for the shared `NoSort` singleton, so the result
  of `NewSortQuery` is a `SortQueryRef`: either the shared singleton or a
  freshly allocated value.
* A Go index expression `s[i]` is embedded as the partial lookup `s[i]?`; an
  out-of-bounds access (a Go runtime panic) surfaces as the `outOfBounds`
  result, and `NewSortQuery` returns `none` exactly when the loop would panic.
  We prove this never happens.
-/

namespace Dataselect

/-- Go: `type PropertyName string` (declared in the dataselect package). -/
abbrev PropertyName := String

/-- Go struct `SortBy`: the name of the property that should be sorted and
whether order should be ascending or descending. -/
structure SortBy where
  Property : PropertyName
  Ascending : Bool
deriving DecidableEq, Repr

/-- Go struct `SortQuery`: holds options for sort functionality of data select. -/
structure SortQuery where
  SortByList : List SortBy
deriving DecidableEq, Repr

/-- Go: `var NoSort = &SortQuery{SortByList: []SortBy{}}` — the value behind
the shared "no sort" pointer. -/
def NoSort : SortQuery := { SortByList := [] }

/-- A `*SortQuery` result of `NewSortQuery`, keeping track of pointer identity:
`noSortRef` is the shared `NoSort` global, `fresh q` a newly allocated value. -/
inductive SortQueryRef where
  | noSortRef
  | fresh (q : SortQuery)
deriving DecidableEq, Repr

/-- Dereference a `*SortQuery`. -/
def SortQueryRef.deref : SortQueryRef → SortQuery
  | .noSortRef => NoSort
  | .fresh q => q

/-- Outcome of the parsing loop inside `NewSortQuery`:
out-of-bounds slice access (a Go panic), the early `return NoSort`, or normal
completion with the accumulated `sortByList`. -/
inductive LoopResult where
  | outOfBounds
  | noSortEarly
  | done (acc : List SortBy)
deriving DecidableEq, Repr

/-- The loop of `NewSortQuery`:
`for i := 0; i+1 < len(sortByListRaw); i += 2 { ... }`.
The slice is threaded through and returned so that we can state that the loop
only reads it. Each `sortByListRaw[i]` access is the partial `raw[i]?`;
a `none` lookup is the `outOfBounds` (panic) outcome. -/
def sortLoop (raw : List String) (acc : List SortBy) (i : Nat) :
    LoopResult × List String :=
  if _h : i + 1 < raw.length then
    match raw[i]?, raw[i+1]? with
    | some orderOption, some propertyName =>
      if orderOption == "a" then
        sortLoop raw (acc ++ [{ Property := propertyName, Ascending := true }]) (i + 2)
      else if orderOption == "d" then
        sortLoop raw (acc ++ [{ Property := propertyName, Ascending := false }]) (i + 2)
      else
        (LoopResult.noSortEarly, raw)
    | _, _ => (LoopResult.outOfBounds, raw)
  else
    (LoopResult.done acc, raw)
termination_by raw.length - i
decreasing_by all_goals omega

/-- Go `func NewSortQuery(sortByListRaw []string) *SortQuery`.
`none` input is the `nil` slice. The `Option` on the result records whether
the loop would have panicked (`none`), which we prove impossible. -/
def NewSortQuery (sortByListRaw : Option (List String)) : Option SortQueryRef :=
  match sortByListRaw with
  | none => some SortQueryRef.noSortRef
  | some raw =>
    if raw.length % 2 == 1 then
      some SortQueryRef.noSortRef
    else
      match (sortLoop raw [] 0).1 with
      | LoopResult.outOfBounds => none
      | LoopResult.noSortEarly => some SortQueryRef.noSortRef
      | LoopResult.done sortByList => some (SortQueryRef.fresh { SortByList := sortByList })

/-- Structural pair-at-a-time companion of `sortLoop`, for proofs:
`none` is the early `return NoSort`. -/
def parsePairs : List String → Option (List SortBy)
  | [] => some []
  | [_] => some []
  | orderOption :: propertyName :: rest =>
    if orderOption == "a" then
      (parsePairs rest).map (fun l => { Property := propertyName, Ascending := true } :: l)
    else if orderOption == "d" then
      (parsePairs rest).map (fun l => { Property := propertyName, Ascending := false } :: l)
    else
      none

/-- Encoding of a list of (ascending?, property) pairs as the flat
direction/property token list the parser accepts. -/
def encodeSortTokens : List (Bool × String) → List String
  | [] => []
  | (b, p) :: rest => (if b then "a" else "d") :: p :: encodeSortTokens rest

/-- Modelled from the spec: `metric.AggregationNames` (a list of
aggregation-function names; the repository's `metric` package is not under
`src/`). -/
abbrev AggregationNames := List String

/-- Modelled from the spec: the sum aggregation-function name, the default
aggregation ("defaulting to sum when unspecified"). The `metric` package that
declares the constant is not under `src/`; the literal value stands for the
name. -/
def SumAggregation : String := "sum"

/-- Modelled from the spec: `metric.OnlySumAggregation`, an aggregation list
holding only the sum aggregation. The `metric` package is not under `src/`. -/
def OnlySumAggregation : AggregationNames := [SumAggregation]

/-- Modelled from the spec: `common.CpuUsage`, the cpu-usage metric name.
The `common` package is not under `src/`; the literal value stands for the
name. -/
def CpuUsage : String := "cpu-usage"

/-- Modelled from the spec: `common.MemoryUsage`, the memory-usage metric
name. The `common` package is not under `src/`; the literal value stands for
the name. -/
def MemoryUsage : String := "memory-usage"

/-- Go struct `MetricQuery`: holds parameters for the metric extraction
process — metrics to download and aggregations to be performed for each
metric. Both slices may be `nil` (`none`). -/
structure MetricQuery where
  MetricNames : Option (List String)
  Aggregations : Option AggregationNames
deriving DecidableEq, Repr

/-- Go `func NewMetricQuery(metricNames []string, aggregations metric.AggregationNames) *MetricQuery`. -/
def NewMetricQuery (metricNames : Option (List String))
    (aggregations : Option AggregationNames) : MetricQuery :=
  { MetricNames := metricNames, Aggregations := aggregations }

/-- Go: `var NoMetrics = NewMetricQuery(nil, nil)`. -/
def NoMetrics : MetricQuery := NewMetricQuery none none

/-- Go: `var StandardMetrics = NewMetricQuery([]string{common.CpuUsage, common.MemoryUsage}, metric.OnlySumAggregation)`. -/
def StandardMetrics : MetricQuery :=
  NewMetricQuery (some [CpuUsage, MemoryUsage]) (some OnlySumAggregation)

/-- Modelled from the spec: `PaginationQuery` (declared in the dataselect
package but not under `src/`) — requested window `{itemsPerPage, page}` with
`itemsPerPage ≥ 0` and 1-based `page ≥ 1`. -/
structure PaginationQuery where
  ItemsPerPage : Nat
  Page : Nat
deriving DecidableEq, Repr

/-- Modelled from the spec: `NoPagination`, the "no pagination" sentinel that
returns everything; per the pagination contract `itemsPerPage == 0` means the
full sequence is returned unsliced. -/
def NoPagination : PaginationQuery := { ItemsPerPage := 0, Page := 1 }

/-- Modelled from the spec: `DefaultPagination` — first 10 items from
page 1. -/
def DefaultPagination : PaginationQuery := { ItemsPerPage := 10, Page := 1 }

/-- Go struct `DataSelectQuery`: options for GenericDataSelect, composing
pagination, sort and metric sub-queries. -/
structure DataSelectQuery where
  PaginationQuery : PaginationQuery
  SortQuery : SortQuery
  MetricQuery : MetricQuery
deriving DecidableEq, Repr

/-- Go `func NewDataSelectQuery(paginationQuery *PaginationQuery, sortQuery *SortQuery, graphQuery *MetricQuery) *DataSelectQuery`. -/
def NewDataSelectQuery (paginationQuery : PaginationQuery) (sortQuery : SortQuery)
    (graphQuery : MetricQuery) : DataSelectQuery :=
  { PaginationQuery := paginationQuery
    SortQuery := sortQuery
    MetricQuery := graphQuery }

/-- Go: `var NoDataSelect = NewDataSelectQuery(NoPagination, NoSort, NoMetrics)`. -/
def NoDataSelect : DataSelectQuery := NewDataSelectQuery NoPagination NoSort NoMetrics

/-- Go: `var StdMetricsDataSelect = NewDataSelectQuery(NoPagination, NoSort, StandardMetrics)`. -/
def StdMetricsDataSelect : DataSelectQuery :=
  NewDataSelectQuery NoPagination NoSort StandardMetrics

/-- Go: `var DefaultDataSelect = NewDataSelectQuery(DefaultPagination, NoSort, NoMetrics)`. -/
def DefaultDataSelect : DataSelectQuery :=
  NewDataSelectQuery DefaultPagination NoSort NoMetrics

/-- Go: `var DefaultDataSelectWithMetrics = NewDataSelectQuery(DefaultPagination, NoSort, StandardMetrics)`. -/
def DefaultDataSelectWithMetrics : DataSelectQuery :=
  NewDataSelectQuery DefaultPagination NoSort StandardMetrics

/-- Modelled from the spec: the pagination stage (not under `src/`).
`totalItems = len(sequence)` is computed before slicing; `itemsPerPage == 0`
returns the full sequence; `startIndex = (page-1)*itemsPerPage`;
`startIndex >= totalItems` yields an empty slice with the true count;
`endIndex = min(startIndex + itemsPerPage, totalItems)`; the returned slice is
`sequence[startIndex:endIndex]`. Result: (page items, totalItems). -/
def paginate {α : Type} (pq : PaginationQuery) (items : List α) : List α × Nat :=
  let totalItems := items.length
  if pq.ItemsPerPage = 0 then
    (items, totalItems)
  else
    let startIndex := (pq.Page - 1) * pq.ItemsPerPage
    if totalItems ≤ startIndex then
      ([], totalItems)
    else
      let endIndex := min (startIndex + pq.ItemsPerPage) totalItems
      ((items.drop startIndex).take (endIndex - startIndex), totalItems)

/-- Modelled from the spec: one comparison of the sort stage's composite
comparator (not under `src/`). The item's property value is looked up through
the property-extraction contract (`getProp`, returning the comparable value or
not-found); found values compare by the value order, negated when the entry is
descending; a not-found value sorts after all found values regardless of
direction. -/
def SortBy.ordering {α β : Type} [LinearOrder β] (getProp : α → PropertyName → Option β)
    (s : SortBy) (x y : α) : Ordering :=
  match getProp x s.Property, getProp y s.Property with
  | some a, some b =>
    if s.Ascending then compare a b else (compare a b).swap
  | some _, none => Ordering.lt
  | none, some _ => Ordering.gt
  | none, none => Ordering.eq

/-- Modelled from the spec: the composite comparator — `SortBy` entries are
evaluated in list order, the first non-tie decides. -/
def compareByList {α β : Type} [LinearOrder β] (getProp : α → PropertyName → Option β) :
    List SortBy → α → α → Ordering
  | [], _, _ => Ordering.eq
  | s :: rest, x, y =>
    match SortBy.ordering getProp s x y with
    | Ordering.eq => compareByList getProp rest x y
    | c => c

/-- `x` may go before `y` under the composite comparator (does not compare
greater). -/
def leByList {α β : Type} [LinearOrder β] (getProp : α → PropertyName → Option β)
    (sortByList : List SortBy) (x y : α) : Bool :=
  match compareByList getProp sortByList x y with
  | Ordering.gt => false
  | _ => true

/-- Insert `a` before the first element it may go before (stable insertion). -/
def orderedInsertB {α : Type} (le : α → α → Bool) (a : α) : List α → List α
  | [] => [a]
  | b :: l => if le a b then a :: b :: l else b :: orderedInsertB le a l

/-- Stable insertion sort with a boolean "may go before" relation. -/
def insertionSortB {α : Type} (le : α → α → Bool) : List α → List α
  | [] => []
  | a :: l => orderedInsertB le a (insertionSortB le l)

/-- Modelled from the spec: the sort stage (not under `src/`) — a single
stable sort pass by the composite comparator of the query's `SortByList`. -/
def sortStage {α β : Type} [LinearOrder β] (getProp : α → PropertyName → Option β)
    (q : SortQuery) (items : List α) : List α :=
  insertionSortB (leByList getProp q.SortByList) items

/-- Two items compare equal under every `SortBy` entry of the query. -/
def eqUnderAll {α β : Type} [LinearOrder β] (getProp : α → PropertyName → Option β)
    (q : SortQuery) (x y : α) : Prop :=
  ∀ s ∈ q.SortByList, SortBy.ordering getProp s x y = Ordering.eq

/-- Modelled from the spec: the metric stage's short-circuit (not under
`src/`) — if `metricNames` is empty (or the `nil` slice), the stage returns an
empty result with no external call; otherwise it invokes the metric
collaborator `fetch`. The boolean records whether an external call occurred. -/
def metricStage {ρ : Type} (fetch : List String → ρ) (empty : ρ) (mq : MetricQuery) :
    ρ × Bool :=
  let names := mq.MetricNames.getD []
  if names.isEmpty then (empty, false) else (fetch names, true)

/-! ## Bridge lemmas between the loop of `NewSortQuery` and `parsePairs` -/

theorem sortLoop_eq_parsePairs (raw : List String) (acc : List SortBy) (i : Nat) :
    sortLoop raw acc i =
      (match parsePairs (raw.drop i) with
       | none => LoopResult.noSortEarly
       | some l => LoopResult.done (acc ++ l), raw) := by
  rw [sortLoop]
  by_cases h : i + 1 < raw.length
  · have hi : i < raw.length := by omega
    have hd1 : raw.drop i = raw[i] :: raw.drop (i + 1) := List.drop_eq_getElem_cons hi
    have hd2 : raw.drop (i + 1) = raw[i+1] :: raw.drop (i + 2) := List.drop_eq_getElem_cons h
    have hg1 : raw[i]? = some raw[i] := List.getElem?_eq_getElem hi
    have hg2 : raw[i+1]? = some raw[i+1] := List.getElem?_eq_getElem h
    rw [dif_pos h, hd1, hd2]
    simp only [hg1, hg2]
    by_cases ha : raw[i] == "a"
    · rw [if_pos ha, sortLoop_eq_parsePairs raw _ (i + 2)]
      simp only [parsePairs, if_pos ha]
      cases parsePairs (raw.drop (i + 2)) with
      | none => rfl
      | some l => simp
    · rw [if_neg ha]
      by_cases hdd : raw[i] == "d"
      · rw [if_pos hdd, sortLoop_eq_parsePairs raw _ (i + 2)]
        simp only [parsePairs, if_neg ha, if_pos hdd]
        cases parsePairs (raw.drop (i + 2)) with
        | none => rfl
        | some l => simp
      · rw [if_neg hdd]
        simp only [parsePairs, if_neg ha, if_neg hdd]
  · rw [dif_neg h]
    have hlen : (raw.drop i).length ≤ 1 := by
      simp only [List.length_drop]
      omega
    match hd : raw.drop i with
    | [] => simp [parsePairs]
    | [x] => simp [parsePairs]
    | x :: y :: rest =>
      rw [hd] at hlen
      simp at hlen
termination_by raw.length - i
decreasing_by all_goals omega

theorem newSortQuery_even (raw : List String) (heven : raw.length % 2 = 0) :
    NewSortQuery (some raw) =
      (match parsePairs raw with
       | none => some SortQueryRef.noSortRef
       | some l => some (SortQueryRef.fresh { SortByList := l })) := by
  have h1 : (raw.length % 2 == 1) = false := by
    simp only [beq_eq_false_iff_ne, ne_eq]
    omega
  simp only [NewSortQuery, h1, Bool.false_eq_true, if_false]
  rw [sortLoop_eq_parsePairs raw [] 0]
  simp only [List.drop_zero]
  cases parsePairs raw with
  | none => rfl
  | some l => simp

theorem parsePairs_complete (raw : List String) (heven : raw.length % 2 = 0)
    (hvalid : ∀ k, 2 * k < raw.length → raw[2 * k]? = some "a" ∨ raw[2 * k]? = some "d") :
    ∃ l, parsePairs raw = some l ∧ l.length = raw.length / 2 ∧
      ∀ k d p, raw[2 * k]? = some d → raw[2 * k + 1]? = some p →
        l[k]? = some { Property := p, Ascending := d == "a" } := by
  match raw with
  | [] =>
    refine ⟨[], rfl, rfl, ?_⟩
    intro k d p hd hp
    simp at hd
  | [x] => simp at heven
  | o :: p0 :: rest =>
    have hlen : (o :: p0 :: rest).length = rest.length + 2 := by simp
    have heven' : rest.length % 2 = 0 := by rw [hlen] at heven; omega
    have hvalid' : ∀ k, 2 * k < rest.length →
        rest[2 * k]? = some "a" ∨ rest[2 * k]? = some "d" := by
      intro k hk
      have h2 : 2 * (k + 1) = 2 * k + 1 + 1 := by ring
      have := hvalid (k + 1) (by rw [hlen]; omega)
      rw [h2, List.getElem?_cons_succ, List.getElem?_cons_succ] at this
      exact this
    obtain ⟨l', hl', hlen', hidx'⟩ :=
      parsePairs_complete rest heven' hvalid'
    have ho := hvalid 0 (by rw [hlen]; omega)
    simp only [Nat.mul_zero, List.getElem?_cons_zero, Option.some.injEq] at ho
    have hdir : (o == "a") = true ∨ ((o == "a") = false ∧ (o == "d") = true) := by
      rcases ho with h | h
      · left; simp [h]
      · right; subst h; constructor <;> rfl
    have key : ∀ b, parsePairs (o :: p0 :: rest) =
        some ({ Property := p0, Ascending := b } :: l') → (o == "a") = b →
        ∃ l, parsePairs (o :: p0 :: rest) = some l ∧
          l.length = (o :: p0 :: rest).length / 2 ∧
          ∀ k d p, (o :: p0 :: rest)[2 * k]? = some d →
            (o :: p0 :: rest)[2 * k + 1]? = some p →
            l[k]? = some { Property := p, Ascending := d == "a" } := by
      intro b hpp hb
      refine ⟨{ Property := p0, Ascending := b } :: l', hpp, ?_, ?_⟩
      · rw [hlen]
        simp only [List.length_cons, hlen']
        omega
      · intro k d p hd hp
        match k with
        | 0 =>
          have hd' : o = d := by simpa using hd
          have hp' : p0 = p := by
            rw [show 2 * 0 + 1 = 0 + 1 from rfl, List.getElem?_cons_succ,
              List.getElem?_cons_zero] at hp
            simpa using hp
          subst hd'
          subst hp'
          simp [← hb]
        | k + 1 =>
          have h2 : 2 * (k + 1) = 2 * k + 1 + 1 := by ring
          have h3 : 2 * (k + 1) + 1 = 2 * k + 1 + 1 + 1 := by ring
          rw [h2, List.getElem?_cons_succ, List.getElem?_cons_succ] at hd
          rw [h3, List.getElem?_cons_succ, List.getElem?_cons_succ] at hp
          rw [List.getElem?_cons_succ]
          exact hidx' k d p hd hp
    rcases hdir with ha | ⟨hna, hd⟩
    · exact key true (by simp [parsePairs, ha, hl']) ha
    · exact key false (by simp [parsePairs, hna, hd, hl']) hna
termination_by raw.length

theorem parsePairs_none_of_invalid (raw : List String) (heven : raw.length % 2 = 0)
    (i : Nat) (t : String) (hi : i % 2 = 0) (ht : raw[i]? = some t)
    (hta : t ≠ "a") (htd : t ≠ "d") : parsePairs raw = none := by
  match raw with
  | [] => simp at ht
  | [x] => simp at heven
  | o :: p0 :: rest =>
    match i with
    | 0 =>
      simp only [List.getElem?_cons_zero, Option.some.injEq] at ht
      subst ht
      simp only [parsePairs]
      rw [if_neg (by simpa using hta), if_neg (by simpa using htd)]
    | 1 => omega
    | j + 2 =>
      have hj : j % 2 = 0 := by omega
      have heven' : rest.length % 2 = 0 := by
        simp only [List.length_cons] at heven; omega
      rw [List.getElem?_cons_succ, List.getElem?_cons_succ] at ht
      have hrec := parsePairs_none_of_invalid rest heven' j t hj ht hta htd
      simp only [parsePairs, hrec, Option.map_none]
      split <;> simp
termination_by raw.length

theorem parsePairs_encodeSortTokens (pairs : List (Bool × String)) :
    parsePairs (encodeSortTokens pairs) =
      some (pairs.map (fun bp => { Property := bp.2, Ascending := bp.1 })) := by
  induction pairs with
  | nil => rfl
  | cons bp rest ih =>
    obtain ⟨b, p⟩ := bp
    cases b with
    | true => simp [encodeSortTokens, parsePairs, ih]
    | false => simp [encodeSortTokens, parsePairs, ih]

theorem length_encodeSortTokens (pairs : List (Bool × String)) :
    (encodeSortTokens pairs).length = 2 * pairs.length := by
  induction pairs with
  | nil => rfl
  | cons bp rest ih => simp [encodeSortTokens, ih]; omega

/-! ## Lemmas about the stable insertion sort of the sort stage -/

theorem mem_orderedInsertB {α : Type} (le : α → α → Bool) (a y : α) (m : List α) :
    y ∈ orderedInsertB le a m ↔ y = a ∨ y ∈ m := by
  induction m with
  | nil => simp [orderedInsertB]
  | cons b m' ih =>
    simp only [orderedInsertB]
    by_cases hab : le a b
    · rw [if_pos hab]
      simp
    · rw [if_neg hab]
      simp only [List.mem_cons, ih]
      tauto

theorem mem_insertionSortB {α : Type} (le : α → α → Bool) (y : α) (l : List α) :
    y ∈ insertionSortB le l ↔ y ∈ l := by
  induction l with
  | nil => simp [insertionSortB]
  | cons a l' ih =>
    simp only [insertionSortB, mem_orderedInsertB, ih, List.mem_cons]

theorem sublist_orderedInsertB {α : Type} (le : α → α → Bool) (a : α) (m : List α) :
    m.Sublist (orderedInsertB le a m) := by
  induction m with
  | nil => simp [orderedInsertB]
  | cons b m' ih =>
    simp only [orderedInsertB]
    by_cases hab : le a b
    · rw [if_pos hab]
      exact List.sublist_cons_self a (b :: m')
    · rw [if_neg hab]
      exact ih.cons₂ b

theorem pair_sublist_orderedInsertB {α : Type} (le : α → α → Bool) (a y : α)
    (m : List α) (hy : y ∈ m) (hle : le a y = true) :
    [a, y].Sublist (orderedInsertB le a m) := by
  induction m with
  | nil => cases hy
  | cons b m' ih =>
    simp only [orderedInsertB]
    by_cases hab : le a b
    · rw [if_pos hab]
      exact (List.singleton_sublist.mpr hy).cons₂ a
    · rw [if_neg hab]
      rcases List.mem_cons.mp hy with rfl | hy'
      · exact absurd hle (by simpa using hab)
      · exact (ih hy').cons b

theorem pair_sublist_insertionSortB {α : Type} (le : α → α → Bool) (x y : α)
    (l : List α) (hsub : [x, y].Sublist l) (hxy : le x y = true) :
    [x, y].Sublist (insertionSortB le l) := by
  induction l with
  | nil => simp at hsub
  | cons a l' ih =>
    cases hsub with
    | cons _ h =>
      exact (ih h).trans (sublist_orderedInsertB le a (insertionSortB le l'))
    | cons₂ _ h =>
      have hy : y ∈ insertionSortB le l' :=
        (mem_insertionSortB le y l').mpr (List.singleton_sublist.mp h)
      exact pair_sublist_orderedInsertB le x y (insertionSortB le l') hy hxy

theorem orderedInsertB_of_true {α : Type} (le : α → α → Bool) (a : α) (m : List α)
    (h : ∀ y, le a y = true) : orderedInsertB le a m = a :: m := by
  cases m with
  | nil => rfl
  | cons b m' => simp [orderedInsertB, h b]

theorem insertionSortB_of_true {α : Type} (le : α → α → Bool)
    (h : ∀ x y, le x y = true) (l : List α) : insertionSortB le l = l := by
  induction l with
  | nil => rfl
  | cons a l' ih =>
    rw [insertionSortB, ih, orderedInsertB_of_true le a l' (h a)]

theorem compareByList_eq_of_all {α β : Type} [LinearOrder β]
    (getProp : α → PropertyName → Option β) (sortByList : List SortBy) (x y : α)
    (h : ∀ s ∈ sortByList, SortBy.ordering getProp s x y = Ordering.eq) :
    compareByList getProp sortByList x y = Ordering.eq := by
  induction sortByList with
  | nil => rfl
  | cons s rest ih =>
    have hs := h s (List.mem_cons_self s rest)
    rw [compareByList, hs]
    exact ih (fun s' hs' => h s' (List.mem_cons_of_mem s hs'))

theorem leByList_of_eqUnderAll {α β : Type} [LinearOrder β]
    (getProp : α → PropertyName → Option β) (q : SortQuery) (x y : α)
    (h : eqUnderAll getProp q x y) : leByList getProp q.SortByList x y = true := by
  rw [leByList, compareByList_eq_of_all getProp q.SortByList x y h]

/-! ## Claim theorems -/

/-- C1: for every non-nil, even-length token list whose every even-index token
is exactly "a" or "d", `NewSortQuery` returns a fresh `SortQuery` whose
`SortByList` has half as many entries as the list has tokens, the k-th entry
pairing the token at index 2k+1 with ascending iff the token at index 2k is
"a", in input order. -/
theorem newSortQuery_parses_valid_even_list (raw : List String)
    (heven : raw.length % 2 = 0)
    (hvalid : ∀ k, 2 * k < raw.length → raw[2 * k]? = some "a" ∨ raw[2 * k]? = some "d") :
    ∃ l, NewSortQuery (some raw) = some (SortQueryRef.fresh { SortByList := l }) ∧
      l.length = raw.length / 2 ∧
      ∀ k d p, raw[2 * k]? = some d → raw[2 * k + 1]? = some p →
        l[k]? = some { Property := p, Ascending := d == "a" } := by
  obtain ⟨l, hl, hlen, hidx⟩ := parsePairs_complete raw heven hvalid
  refine ⟨l, ?_, hlen, hidx⟩
  rw [newSortQuery_even raw heven, hl]

/-- C1 witness: the spec's example `["a","name","d","age"]` parses to
(name, ascending) then (age, descending). -/
theorem newSortQuery_parses_valid_even_list_witness :
    (∃ l, NewSortQuery (some ["a", "name", "d", "age"]) =
        some (SortQueryRef.fresh { SortByList := l }) ∧
      l.length = (["a", "name", "d", "age"] : List String).length / 2 ∧
      ∀ k d p, (["a", "name", "d", "age"] : List String)[2 * k]? = some d →
        (["a", "name", "d", "age"] : List String)[2 * k + 1]? = some p →
        l[k]? = some { Property := p, Ascending := d == "a" }) ∧
    NewSortQuery (some ["a", "name", "d", "age"]) =
      some (SortQueryRef.fresh { SortByList :=
        [{ Property := "name", Ascending := true },
         { Property := "age", Ascending := false }] }) :=
  ⟨newSortQuery_parses_valid_even_list ["a", "name", "d", "age"] (by decide)
    (by
      intro k hk
      match k with
      | 0 => exact Or.inl rfl
      | 1 => exact Or.inr rfl
      | n + 2 => exact absurd hk (by simp; omega)),
   by
    rw [newSortQuery_even ["a", "name", "d", "age"] (by decide)]
    rfl⟩

/-- C2: a nil token list and every odd-length token list both make
`NewSortQuery` return the shared `NoSort` singleton (whose `SortByList` is
empty); no error is raised. -/
theorem newSortQuery_nil_or_odd_returns_noSort (raw : List String)
    (hodd : raw.length % 2 = 1) :
    NewSortQuery none = some SortQueryRef.noSortRef ∧
    NewSortQuery (some raw) = some SortQueryRef.noSortRef ∧
    SortQueryRef.noSortRef.deref = NoSort ∧ NoSort.SortByList = [] := by
  refine ⟨rfl, ?_, rfl, rfl⟩
  simp [NewSortQuery, hodd]

/-- C2 witness: the odd-length list `["a"]`. -/
theorem newSortQuery_nil_or_odd_returns_noSort_witness :
    NewSortQuery none = some SortQueryRef.noSortRef ∧
    NewSortQuery (some ["a"]) = some SortQueryRef.noSortRef ∧
    SortQueryRef.noSortRef.deref = NoSort ∧ NoSort.SortByList = [] :=
  newSortQuery_nil_or_odd_returns_noSort ["a"] (by decide)

/-- C3: any token list with an invalid direction token (neither "a" nor "d")
at some even index makes `NewSortQuery` return the shared `NoSort` singleton —
never a partially parsed prefix. -/
theorem newSortQuery_invalid_direction_returns_noSort (raw : List String)
    (i : Nat) (t : String) (hi : i % 2 = 0) (ht : raw[i]? = some t)
    (hta : t ≠ "a") (htd : t ≠ "d") :
    NewSortQuery (some raw) = some SortQueryRef.noSortRef := by
  rcases Nat.mod_two_eq_zero_or_one raw.length with heven | hodd
  · rw [newSortQuery_even raw heven,
      parsePairs_none_of_invalid raw heven i t hi ht hta htd]
  · simp [NewSortQuery, hodd]

/-- C3 witness: `["a","name","x","age"]` has a valid first pair and an invalid
direction token at index 2, and still degrades to the `NoSort` singleton. -/
theorem newSortQuery_invalid_direction_returns_noSort_witness :
    NewSortQuery (some ["a", "name", "x", "age"]) = some SortQueryRef.noSortRef :=
  newSortQuery_invalid_direction_returns_noSort ["a", "name", "x", "age"] 2 "x"
    rfl rfl (by decide) (by decide)

/-- C4: with itemsPerPage > 0 and (page-1)*itemsPerPage at or beyond the
sequence length, the pagination stage returns an empty page while totalItems
still equals the full sequence length; no error. -/
theorem paginate_out_of_range_empty_page {α : Type} (pq : PaginationQuery)
    (items : List α) (hpp : 0 < pq.ItemsPerPage)
    (hrange : items.length ≤ (pq.Page - 1) * pq.ItemsPerPage) :
    paginate pq items = ([], items.length) := by
  simp only [paginate]
  rw [if_neg (by omega), if_pos hrange]

/-- C4 witness: page 2 of 10 items per page over a 3-item sequence. -/
theorem paginate_out_of_range_empty_page_witness :
    paginate { ItemsPerPage := 10, Page := 2 } [1, 2, 3] = ([], 3) := by
  simpa using paginate_out_of_range_empty_page { ItemsPerPage := 10, Page := 2 }
    [1, 2, 3] (by decide) (by decide)

/-- C5: the sort stage is stable — two items that compare equal under every
`SortBy` entry of the query keep their original relative order — and the empty
`SortQuery` yields the input sequence unchanged. -/
theorem sortStage_stable_and_empty_identity {α β : Type} [LinearOrder β]
    (getProp : α → PropertyName → Option β) (q : SortQuery) (items : List α)
    (x y : α) (hsub : [x, y].Sublist items) (heq : eqUnderAll getProp q x y) :
    [x, y].Sublist (sortStage getProp q items) ∧
    ∀ l : List α, sortStage getProp { SortByList := [] } l = l := by
  constructor
  · exact pair_sublist_insertionSortB (leByList getProp q.SortByList) x y items
      hsub (leByList_of_eqUnderAll getProp q x y heq)
  · intro l
    exact insertionSortB_of_true (leByList getProp []) (fun a b => rfl) l

/-- C5 witness: two items indistinguishable to the comparator keep their order
under a one-key sort, and the empty sort is the identity. -/
theorem sortStage_stable_and_empty_identity_witness :
    [1, 2].Sublist (sortStage (fun (_ : Nat) (_ : PropertyName) => (none : Option Int))
      { SortByList := [{ Property := "p", Ascending := true }] } [1, 2]) ∧
    ∀ l : List Nat, sortStage (fun (_ : Nat) (_ : PropertyName) => (none : Option Int))
      { SortByList := [] } l = l :=
  sortStage_stable_and_empty_identity (fun _ _ => none)
    { SortByList := [{ Property := "p", Ascending := true }] } [1, 2] 1 2
    (List.Sublist.refl [1, 2])
    (fun s hs => by
      rw [List.mem_singleton] at hs
      subst hs
      rfl)

/-- C6: `NewDataSelectQuery` stores its three arguments unchanged, and the
named presets compose exactly the advertised sub-queries. -/
theorem newDataSelectQuery_fields_and_presets :
    (∀ (p : PaginationQuery) (s : SortQuery) (m : MetricQuery),
      (NewDataSelectQuery p s m).PaginationQuery = p ∧
      (NewDataSelectQuery p s m).SortQuery = s ∧
      (NewDataSelectQuery p s m).MetricQuery = m) ∧
    NoDataSelect = NewDataSelectQuery NoPagination NoSort NoMetrics ∧
    DefaultDataSelect = NewDataSelectQuery DefaultPagination NoSort NoMetrics ∧
    StdMetricsDataSelect = NewDataSelectQuery NoPagination NoSort StandardMetrics ∧
    DefaultDataSelectWithMetrics =
      NewDataSelectQuery DefaultPagination NoSort StandardMetrics :=
  ⟨fun _p _s _m => ⟨rfl, rfl, rfl⟩, rfl, rfl, rfl, rfl⟩

/-- C7: `StandardMetrics` requests exactly cpu usage and memory usage with sum
as the only aggregation; `NoMetrics` has a nil metric-name list, so the metric
stage short-circuits on it without an external call. -/
theorem standardMetrics_and_noMetrics_content :
    StandardMetrics.MetricNames = some [CpuUsage, MemoryUsage] ∧
    StandardMetrics.Aggregations = some [SumAggregation] ∧
    NoMetrics.MetricNames = none ∧
    ∀ (ρ : Type) (fetch : List String → ρ) (empty : ρ),
      metricStage fetch empty NoMetrics = (empty, false) :=
  ⟨rfl, rfl, rfl, fun _ _ _ => rfl⟩

/-- C8: `NewSortQuery` is total — it never panics (never returns `none` in the
embedding) — and the empty non-nil token list yields a freshly built
`SortQuery` with an empty `SortByList`, behaviourally equal to `NoSort` but
not the shared singleton. -/
theorem newSortQuery_total_and_empty_list_fresh :
    (∀ input, (NewSortQuery input).isSome = true) ∧
    NewSortQuery (some []) = some (SortQueryRef.fresh { SortByList := [] }) ∧
    SortQueryRef.fresh { SortByList := [] } ≠ SortQueryRef.noSortRef ∧
    (SortQueryRef.fresh { SortByList := [] }).deref = NoSort := by
  refine ⟨?_, ?_, by simp, rfl⟩
  · intro input
    match input with
    | none => rfl
    | some raw =>
      rcases Nat.mod_two_eq_zero_or_one raw.length with heven | hodd
      · rw [newSortQuery_even raw heven]
        cases parsePairs raw <;> rfl
      · simp [NewSortQuery, hodd]
  · rw [newSortQuery_even [] rfl]
    rfl

/-- C9: for well-formed direction tokens, every property-name string — empty,
duplicate, or unknown — is accepted unchanged as a `PropertyName` entry; no
validation of property names happens at parse time. -/
theorem newSortQuery_accepts_any_property_name (pairs : List (Bool × String)) :
    NewSortQuery (some (encodeSortTokens pairs)) =
      some (SortQueryRef.fresh
        { SortByList := pairs.map (fun bp => { Property := bp.2, Ascending := bp.1 }) }) := by
  have heven : (encodeSortTokens pairs).length % 2 = 0 := by
    rw [length_encodeSortTokens]
    omega
  rw [newSortQuery_even _ heven, parsePairs_encodeSortTokens pairs]

/-- C10: `NewSortQuery`, `NewMetricQuery` and `NewDataSelectQuery` are
deterministic (structurally equal arguments give structurally equal results),
and the parsing loop returns its token slice unchanged — it only reads it. -/
theorem constructors_deterministic_and_loop_reads_only :
    (∀ a b : Option (List String), a = b → NewSortQuery a = NewSortQuery b) ∧
    (∀ (m1 m2 : Option (List String)) (a1 a2 : Option AggregationNames),
      m1 = m2 → a1 = a2 → NewMetricQuery m1 a1 = NewMetricQuery m2 a2) ∧
    (∀ (p1 p2 : PaginationQuery) (s1 s2 : SortQuery) (g1 g2 : MetricQuery),
      p1 = p2 → s1 = s2 → g1 = g2 →
      NewDataSelectQuery p1 s1 g1 = NewDataSelectQuery p2 s2 g2) ∧
    ∀ (raw : List String) (acc : List SortBy) (i : Nat), (sortLoop raw acc i).2 = raw := by
  refine ⟨?_, ?_, ?_, ?_⟩
  · intro a b h
    rw [h]
  · intro m1 m2 a1 a2 h1 h2
    rw [h1, h2]
  · intro p1 p2 s1 s2 g1 g2 h1 h2 h3
    rw [h1, h2, h3]
  · intro raw acc i
    rw [sortLoop_eq_parsePairs raw acc i]

/-- C10 witness: the constructors at equal concrete arguments, and the loop
returning its concrete slice unchanged. -/
theorem constructors_deterministic_and_loop_reads_only_witness :
    NewSortQuery (some ["a", "x"]) = NewSortQuery (some ["a", "x"]) ∧
    NewMetricQuery none none = NewMetricQuery none none ∧
    NewDataSelectQuery NoPagination NoSort NoMetrics =
      NewDataSelectQuery NoPagination NoSort NoMetrics ∧
    (sortLoop ["a", "x"] [] 0).2 = ["a", "x"] :=
  ⟨constructors_deterministic_and_loop_reads_only.1 _ _ rfl,
   constructors_deterministic_and_loop_reads_only.2.1 _ _ _ _ rfl rfl,
   constructors_deterministic_and_loop_reads_only.2.2.1 _ _ _ _ _ _ rfl rfl rfl,
   constructors_deterministic_and_loop_reads_only.2.2.2 ["a", "x"] [] 0⟩

end Dataselect
